import Mathlib

/-!
Verification of the per-user keyed state store
(`DjangoXBlockUserStateClient` in `lms/djangoapps/courseware/user_state_client.py`).

The client stores, per `(user, usage key)` pair, a JSON field map in a row of the
backing `StudentModule` table. We embed the client's operations as pure functions
over an explicit list of rows; the backing record store (Django ORM calls
`chunked_filter`, `get_or_create`, `save(force_update=True)` and the auto-updated
`modified` column, which live outside this file's sources) is modelled from the
spec's collaborator contract.
-/

namespace UserState

/-- A usage key: identifies a content unit; carries its parent course
(`course_key` attribute) and a block type (`block_type` attribute). -/
structure UsageKey where
  course : Nat
  id : Nat
  blockType : String
deriving DecidableEq, Repr

/-- `UsageKey.map_into_course`: the same key re-addressed into the given course. -/
def UsageKey.map_into_course (k : UsageKey) (course_id : Nat) : UsageKey :=
  { k with course := course_id }

/-- JSON-serializable field values (payloads are opaque to the client). -/
inductive JsonValue where
  | num (n : Int)
  | str (s : String)
  | bool (b : Bool)
  | null
deriving DecidableEq, Repr

/-- A JSON object / Python dict: insertion-ordered association list with
unique keys by construction of the dict operations below. -/
abbrev FieldMap := List (String × JsonValue)

/-- Model of Python dict lookup `m[x]` (first matching key; keys are unique in
maps built by the operations below). -/
def dictLookup {V : Type} : List (String × V) → String → Option V
  | [], _ => none
  | (k, v) :: m, x => if k = x then some v else dictLookup m x

/-- Model of Python dict assignment `m[k] = v`: overwrite in place if the key
exists, else append at the end (insertion order preserved). -/
def dictSet {V : Type} : List (String × V) → String → V → List (String × V)
  | [], k, v => [(k, v)]
  | (k', v') :: m, k, v => if k' = k then (k, v) :: m else (k', v') :: dictSet m k v

/-- Model of Python `stored.update(updates)`: assign each pair of `updates`,
in order, into `stored`. -/
def dictUpdate {V : Type} (stored updates : List (String × V)) : List (String × V) :=
  updates.foldl (fun acc kv => dictSet acc kv.1 kv.2) stored

/-- Model of Python `del m[k]` (guarded by `k in m` in the source): remove the
entry for `k`; on maps with unique keys this removes exactly that entry. -/
def dictDel {V : Type} : List (String × V) → String → List (String × V)
  | [], _ => []
  | (k', v') :: m, k => if k' = k then dictDel m k else (k', v') :: dictDel m k

/-- Model of a Python dict comprehension over a pair sequence: later pairs with
the same key overwrite earlier ones. -/
def dictOfPairs {V : Type} (ps : List (String × V)) : List (String × V) :=
  dictUpdate [] ps

/-- The XBlock field scopes; the client supports only `Scope.user_state`. -/
inductive Scope where
  | user_state
  | user_state_summary
  | preferences
  | user_info
  | settings
  | content
deriving DecidableEq, Repr

/-- The failure kinds an operation can surface: the `assert` on the bound
username (fatal `AssertionError`), the `ValueError` raised for a scope other
than `Scope.user_state`, the `DoesNotExist` of single-key `get`, the
`TypeError` of `json.loads(None)`, and `NotImplementedError`. -/
inductive StoreError where
  | assertionError
  | unsupportedScope
  | doesNotExist
  | typeError
  | notImplementedError
deriving DecidableEq, Repr

/-- A row of the backing `StudentModule` table: owner username, course id,
usage key, JSON state (nullable), module type, and the row-level `modified`
timestamp. -/
structure StudentModule where
  student : String
  course : Nat
  module_state_key : UsageKey
  state : Option FieldMap
  module_type : String
  modified : Nat
deriving DecidableEq, Repr

/-- The backing table. -/
abbrev Store := List StudentModule

/-- The unique-key triple `(student, course_id, module_state_key)` of a row. -/
def keyOf (sm : StudentModule) : String × Nat × UsageKey :=
  (sm.student, sm.course, sm.module_state_key)

/-- Table well-formedness: at most one row per `(student, course, usage key)`
triple (the table's unique constraint). -/
def StoreWf (store : Store) : Prop :=
  (store.map keyOf).Nodup

/-- Does a row belong to `(username, course_id, usage key)`? -/
def rowMatch (username : String) (course_id : Nat) (k : UsageKey) (sm : StudentModule) : Bool :=
  decide (sm.student = username ∧ sm.course = course_id ∧ sm.module_state_key = k)

/-- The row for `(username, usage_key.course, usage_key)`, if any. -/
def find_row (store : Store) (username : String) (usage_key : UsageKey) :
    Option StudentModule :=
  store.find? (rowMatch username usage_key.course usage_key)

/-- Modelled from the spec: the record store's batch lookup
(`find_records(owner, container, keys)` in the collaborator contract;
`StudentModule.objects.chunked_filter` in the source's caller) — one batch
query returning every row whose key is in `usage_keys` for the given owner
and course. -/
def chunked_filter (store : Store) (usage_keys : List UsageKey) (username : String)
    (course_id : Nat) : List StudentModule :=
  store.filter (fun sm =>
    decide (sm.module_state_key ∈ usage_keys ∧ sm.student = username ∧ sm.course = course_id))

/-- `sorted(block_keys, key=attrgetter('course_key'))`: stable ascending sort
by parent course. -/
def sortByCourse (l : List UsageKey) : List UsageKey :=
  List.insertionSort (fun a b => a.course ≤ b.course) l

/-- `itertools.groupby(..., course_key_func)`: group consecutive keys sharing
the same parent course, keeping order. -/
def groupByCourse : List UsageKey → List (Nat × List UsageKey)
  | [] => []
  | k :: ks =>
    match groupByCourse ks with
    | [] => [(k.course, [k])]
    | (c, g) :: rest =>
      if k.course = c then (c, k :: g) :: rest
      else (k.course, [k]) :: (c, g) :: rest

/-- `_get_student_modules`, instrumented: the yielded `(row, usage key)` pairs
together with the number of backing-store queries issued (one `chunked_filter`
per course group). -/
def _get_student_modules_counted (store : Store) (username : String)
    (block_keys : List UsageKey) : List (StudentModule × UsageKey) × Nat :=
  let by_course := groupByCourse (sortByCourse block_keys)
  (by_course.flatMap (fun cg =>
      (chunked_filter store cg.2 username cg.1).map
        (fun sm => (sm, sm.module_state_key.map_into_course sm.course))),
   by_course.length)

/-- `_get_student_modules`: the `(StudentModule, UsageKey)` pairs for the
user's rows among `block_keys`, grouped by course. -/
def _get_student_modules (store : Store) (username : String)
    (block_keys : List UsageKey) : List (StudentModule × UsageKey) :=
  (_get_student_modules_counted store username block_keys).1

/-- `module.state is None` is read as the empty field map. -/
def stateOrEmpty : Option FieldMap → FieldMap
  | none => []
  | some m => m

/-- `get_many`: assert the bound username, reject any scope other than
`user_state`, then yield `(usage key, field map)` for each existing row;
the `fields` argument is accepted but never used. -/
def get_many (self : String) (store : Store) (username : String)
    (block_keys : List UsageKey) (scope : Scope) (fields : Option (List String)) :
    Except StoreError (List (UsageKey × FieldMap)) :=
  if self = username then
    if scope = Scope.user_state then
      Except.ok ((_get_student_modules store username block_keys).map
        (fun mu => (mu.2, stateOrEmpty mu.1.state)))
    else Except.error StoreError.unsupportedScope
  else Except.error StoreError.assertionError

/-- `get`: assert the bound username, then take `next` of the 1-element batch
`get_many(username, [block_key], ...)`, translating an empty batch into
`DoesNotExist`. -/
def get (self : String) (store : Store) (username : String) (block_key : UsageKey)
    (scope : Scope) (fields : Option (List String)) : Except StoreError FieldMap :=
  if self = username then
    match get_many self store username [block_key] scope fields with
    | Except.error e => Except.error e
    | Except.ok [] => Except.error StoreError.doesNotExist
    | Except.ok (e :: _) => Except.ok e.2
  else Except.error StoreError.assertionError

/-- Modelled from the spec: saving a freshly read row with force-update
semantics — the row with the same unique key triple gets the new state, and its
record-level `modified` timestamp is updated on write. -/
def saveRow (store : Store) (row : StudentModule) (newState : Option FieldMap)
    (now : Nat) : Store :=
  store.map (fun sm =>
    if keyOf sm = keyOf row then { sm with state := newState, modified := now } else sm)

/-- Modelled from the spec: the row `get_or_create` inserts when none exists —
the defaults of the source's call: serialized `state` and the usage key's
block type, with the `modified` timestamp set at creation. -/
def newRow (self : String) (usage_key : UsageKey) (state : FieldMap)
    (now : Nat) : StudentModule where
  student := self
  course := usage_key.course
  module_state_key := usage_key
  state := some state
  module_type := usage_key.blockType
  modified := now

/-- One iteration of `set_many`'s loop: `get_or_create` the row for
`(self, usage_key.course_key, usage_key)` with the serialized state as creation
default, and on an existing row overlay the stored map (`None` read as `{}`)
with `state` and save. -/
def set_one (self : String) (now : Nat) (store : Store) (usage_key : UsageKey)
    (state : FieldMap) : Store :=
  match find_row store self usage_key with
  | none => store ++ [newRow self usage_key state now]
  | some student_module =>
    let current_state := stateOrEmpty student_module.state
    saveRow store student_module (some (dictUpdate current_state state)) now

/-- `set_many`: assert the bound username and the scope, then apply `set_one`
to each `(usage key, partial fields)` pair in order. -/
def set_many (self : String) (store : Store) (now : Nat) (username : String)
    (block_keys_to_state : List (UsageKey × FieldMap)) (scope : Scope) :
    Except StoreError Store :=
  if self = username then
    if scope = Scope.user_state then
      Except.ok (block_keys_to_state.foldl
        (fun st ks => set_one self now st ks.1 ks.2) store)
    else Except.error StoreError.unsupportedScope
  else Except.error StoreError.assertionError

/-- `set`: assert the bound username, then `set_many` on the 1-element dict. -/
def set (self : String) (store : Store) (now : Nat) (username : String)
    (block_key : UsageKey) (state : FieldMap) (scope : Scope) :
    Except StoreError Store :=
  if self = username then
    set_many self store now username [(block_key, state)] scope
  else Except.error StoreError.assertionError

/-- `fields` loop of `delete_many`: drop each named field that is present. -/
def delete_fields (current_state : FieldMap) (fields : List String) : FieldMap :=
  fields.foldl dictDel current_state

/-- `delete_many`: assert the bound username and the scope, then for each
resolved row either reset its state to `"{}"` (when `fields is None`) or parse
the stored JSON — `json.loads(None)` raises a `TypeError` when the state is
null — remove the named fields, and save. -/
def delete_many (self : String) (store : Store) (now : Nat) (username : String)
    (block_keys : List UsageKey) (scope : Scope) (fields : Option (List String)) :
    Except StoreError Store :=
  if self = username then
    if scope = Scope.user_state then
      (_get_student_modules store username block_keys).foldlM
        (fun st mu =>
          match fields with
          | none => Except.ok (saveRow st mu.1 (some []) now)
          | some fs =>
            match mu.1.state with
            | none => Except.error StoreError.typeError
            | some current_state =>
              Except.ok (saveRow st mu.1 (some (delete_fields current_state fs)) now))
        store
    else Except.error StoreError.unsupportedScope
  else Except.error StoreError.assertionError

/-- `delete`: assert the bound username, then `delete_many` on a 1-element
batch. -/
def delete (self : String) (store : Store) (now : Nat) (username : String)
    (block_key : UsageKey) (scope : Scope) (fields : Option (List String)) :
    Except StoreError Store :=
  if self = username then
    delete_many self store now username [block_key] scope fields
  else Except.error StoreError.assertionError

/-- `get_mod_date_many`: assert the bound username and the scope, then for each
resolved row with non-null state yield `(usage key, field name, modified)` for
every stored field name, all carrying the row-level `modified` timestamp. -/
def get_mod_date_many (self : String) (store : Store) (username : String)
    (block_keys : List UsageKey) (scope : Scope) (fields : Option (List String)) :
    Except StoreError (List (UsageKey × String × Nat)) :=
  if self = username then
    if scope = Scope.user_state then
      Except.ok ((_get_student_modules store username block_keys).flatMap
        (fun mu =>
          match mu.1.state with
          | none => []
          | some st => st.map (fun fv => (mu.2, fv.1, mu.1.modified))))
    else Except.error StoreError.unsupportedScope
  else Except.error StoreError.assertionError

/-- `get_mod_date`: collapse `get_mod_date_many` on a 1-element batch into a
`{field: date}` mapping. -/
def get_mod_date (self : String) (store : Store) (username : String)
    (block_key : UsageKey) (scope : Scope) (fields : Option (List String)) :
    Except StoreError (List (String × Nat)) :=
  match get_mod_date_many self store username [block_key] scope fields with
  | Except.error e => Except.error e
  | Except.ok results =>
    Except.ok (dictOfPairs (results.map (fun r => (r.2.1, r.2.2))))

/-- `get_history`: assert the bound username and the scope, then raise
`NotImplementedError`. -/
def get_history (self : String) (username : String) (block_key : UsageKey)
    (scope : Scope) : Except StoreError Unit :=
  if self = username then
    if scope = Scope.user_state then Except.error StoreError.notImplementedError
    else Except.error StoreError.unsupportedScope
  else Except.error StoreError.assertionError

/-! ### Lemmas about the dict model -/

theorem dictLookup_dictSet {V : Type} (m : List (String × V)) (k x : String) (v : V) :
    dictLookup (dictSet m k v) x = if k = x then some v else dictLookup m x := by
  induction m with
  | nil => simp [dictSet, dictLookup]
  | cons p m ih =>
    obtain ⟨k', v'⟩ := p
    by_cases hk : k' = k
    · subst hk
      by_cases hx : k' = x <;> simp [dictSet, dictLookup, hx]
    · by_cases hx : k' = x
      · subst hx
        have : ¬k = k' := fun h => hk h.symm
        simp [dictSet, dictLookup, hk, this]
      · simp [dictSet, dictLookup, hk, hx, ih]

theorem dictLookup_dictDel {V : Type} (m : List (String × V)) (k x : String) :
    dictLookup (dictDel m k) x = if k = x then none else dictLookup m x := by
  induction m with
  | nil => simp [dictDel, dictLookup]
  | cons p m ih =>
    obtain ⟨k', v'⟩ := p
    by_cases hk : k' = k
    · subst hk
      by_cases hx : k' = x
      · subst hx
        simp [dictDel, dictLookup, ih]
      · simp [dictDel, dictLookup, hx, ih]
    · by_cases hx : k' = x
      · subst hx
        have : ¬k = k' := fun h => hk h.symm
        simp [dictDel, dictLookup, hk, this]
      · simp [dictDel, dictLookup, hk, hx, ih]

theorem dictLookup_delete_fields (fields : List String) :
    ∀ (m : FieldMap) (x : String),
      dictLookup (delete_fields m fields) x =
        if x ∈ fields then none else dictLookup m x := by
  induction fields with
  | nil => intro m x; simp [delete_fields]
  | cons a L ih =>
    intro m x
    have step : delete_fields m (a :: L) = delete_fields (dictDel m a) L := rfl
    rw [step, ih, dictLookup_dictDel]
    by_cases hL : x ∈ L
    · simp [hL]
    · by_cases hax : a = x
      · subst hax; simp [hL]
      · have : ¬x = a := fun h => hax h.symm
        simp [hL, hax, this]

theorem dictUpdate_cons {V : Type} (m : List (String × V)) (k : String) (v : V)
    (rest : List (String × V)) :
    dictUpdate m ((k, v) :: rest) = dictUpdate (dictSet m k v) rest := rfl

theorem dictLookup_eq_none {V : Type} {m : List (String × V)} {x : String}
    (h : x ∉ m.map Prod.fst) : dictLookup m x = none := by
  induction m with
  | nil => rfl
  | cons p m ih =>
    obtain ⟨k, v⟩ := p
    simp only [List.map_cons, List.mem_cons] at h
    push_neg at h
    have : ¬k = x := fun he => h.1 he.symm
    simp [dictLookup, this, ih h.2]

theorem dictLookup_dictUpdate {V : Type} (P : List (String × V))
    (hP : (P.map Prod.fst).Nodup) :
    ∀ (m : List (String × V)) (x : String),
      dictLookup (dictUpdate m P) x =
        if (dictLookup P x).isSome then dictLookup P x else dictLookup m x := by
  induction P with
  | nil => intro m x; simp [dictUpdate, dictLookup]
  | cons p rest ih =>
    obtain ⟨k, v⟩ := p
    simp only [List.map_cons, List.nodup_cons] at hP
    intro m x
    rw [dictUpdate_cons, ih hP.2, dictLookup_dictSet]
    by_cases hkx : k = x
    · subst hkx
      have hnone : dictLookup rest k = none := dictLookup_eq_none hP.1
      simp [dictLookup, hnone]
    · simp [dictLookup, hkx]

theorem mem_keys_dictSet_self {V : Type} (m : List (String × V)) (k : String) (v : V) :
    k ∈ (dictSet m k v).map Prod.fst := by
  induction m with
  | nil => simp [dictSet]
  | cons p m ih =>
    obtain ⟨k', v'⟩ := p
    by_cases hk : k' = k <;> simp [dictSet, hk, ih]

theorem mem_keys_dictSet_of_mem {V : Type} {m : List (String × V)} {x : String}
    (k : String) (v : V) (h : x ∈ m.map Prod.fst) :
    x ∈ (dictSet m k v).map Prod.fst := by
  induction m with
  | nil => simp at h
  | cons p m ih =>
    obtain ⟨k', v'⟩ := p
    simp only [List.map_cons, List.mem_cons] at h
    by_cases hk : k' = k
    · subst hk
      rcases h with h | h <;> simp [dictSet, h]
    · rcases h with h | h
      · simp [dictSet, hk, h]
      · simp [dictSet, hk, ih h]

theorem mem_keys_dictUpdate_right {V : Type} {x : String} :
    ∀ (updates m : List (String × V)), x ∈ m.map Prod.fst →
      x ∈ (dictUpdate m updates).map Prod.fst := by
  intro updates
  induction updates with
  | nil => intro m h; simpa [dictUpdate] using h
  | cons p rest ih =>
    intro m h
    obtain ⟨k, v⟩ := p
    rw [dictUpdate_cons]
    exact ih _ (mem_keys_dictSet_of_mem k v h)

theorem mem_keys_dictUpdate_left {V : Type} {x : String} :
    ∀ (updates m : List (String × V)), x ∈ updates.map Prod.fst →
      x ∈ (dictUpdate m updates).map Prod.fst := by
  intro updates
  induction updates with
  | nil => intro m h; simp at h
  | cons p rest ih =>
    intro m h
    obtain ⟨k, v⟩ := p
    simp only [List.map_cons, List.mem_cons] at h
    rw [dictUpdate_cons]
    rcases h with h | h
    · subst h
      exact mem_keys_dictUpdate_right rest _ (mem_keys_dictSet_self m x v)
    · exact ih _ h

theorem dictLookup_dictUpdate_const {V : Type} (t : V) (x : String) :
    ∀ (ks : List String) (m : List (String × V)),
      dictLookup (dictUpdate m (ks.map (fun k => (k, t)))) x =
        if x ∈ ks then some t else dictLookup m x := by
  intro ks
  induction ks with
  | nil => intro m; simp [dictUpdate]
  | cons k rest ih =>
    intro m
    simp only [List.map_cons]
    rw [dictUpdate_cons, ih, dictLookup_dictSet]
    by_cases hr : x ∈ rest
    · simp [hr]
    · by_cases hkx : k = x
      · subst hkx; simp [hr]
      · have : ¬x = k := fun h => hkx h.symm
        simp [hr, hkx, this]

/-! ### Uniqueness of rows and single-key query computations -/

theorem filter_eq_find_toList {α : Type} (p : α → Bool) :
    ∀ (l : List α), l.Pairwise (fun a b => ¬(p a = true ∧ p b = true)) →
      l.filter p = (l.find? p).toList := by
  intro l
  induction l with
  | nil => intro _; rfl
  | cons a l ih =>
    intro h
    rw [List.pairwise_cons] at h
    by_cases ha : p a = true
    · have hnil : l.filter p = [] := by
        rw [List.filter_eq_nil_iff]
        intro b hb hpb
        exact h.1 b hb ⟨ha, hpb⟩
      simp [List.filter_cons, List.find?_cons, ha, hnil]
    · simp [List.filter_cons, List.find?_cons, ha, ih h.2]

theorem StoreWf.pairwise_rowMatch {store : Store} (hwf : StoreWf store)
    (username : String) (c : Nat) (k : UsageKey) :
    store.Pairwise (fun a b =>
      ¬(rowMatch username c k a = true ∧ rowMatch username c k b = true)) := by
  have h : store.Pairwise (fun a b => keyOf a ≠ keyOf b) :=
    (List.pairwise_map).mp hwf
  refine h.imp ?_
  intro a b hne hmatch
  obtain ⟨ha, hb⟩ := hmatch
  simp only [rowMatch, decide_eq_true_eq] at ha hb
  apply hne
  simp [keyOf, ha.1, ha.2.1, ha.2.2, hb.1, hb.2.1, hb.2.2]

theorem find_row_eq_some {store : Store} {username : String} {k : UsageKey}
    {sm : StudentModule} (h : find_row store username k = some sm) :
    sm ∈ store ∧ sm.student = username ∧ sm.course = k.course ∧
      sm.module_state_key = k := by
  have hmem := List.mem_of_find?_eq_some h
  have hp := List.find?_some h
  simp only [rowMatch, decide_eq_true_eq] at hp
  exact ⟨hmem, hp.1, hp.2.1, hp.2.2⟩

theorem map_into_course_self (k : UsageKey) : k.map_into_course k.course = k := rfl

theorem gsm_single (store : Store) (username : String) (k : UsageKey) :
    _get_student_modules store username [k] =
      (store.filter (rowMatch username k.course k)).map
        (fun sm => (sm, sm.module_state_key.map_into_course sm.course)) := by
  unfold _get_student_modules _get_student_modules_counted
  have hsort : sortByCourse [k] = [k] := rfl
  have hgroup : groupByCourse [k] = [(k.course, [k])] := rfl
  rw [hsort, hgroup]
  simp only [List.flatMap_cons, List.flatMap_nil, List.append_nil]
  refine congrArg _ (List.filter_congr ?_)
  intro sm _
  simp only [chunked_filter, rowMatch, List.mem_singleton]
  apply decide_eq_decide.mpr
  constructor
  · rintro ⟨h1, h2, h3⟩; exact ⟨h2, h3, h1⟩
  · rintro ⟨h1, h2, h3⟩; exact ⟨h3, h1, h2⟩

theorem gsm_single_none {store : Store} {username : String} {k : UsageKey}
    (h : find_row store username k = none) :
    _get_student_modules store username [k] = [] := by
  rw [gsm_single]
  have hnil : store.filter (rowMatch username k.course k) = [] := by
    rw [List.filter_eq_nil_iff]
    simp only [find_row, List.find?_eq_none] at h
    exact h
  rw [hnil, List.map_nil]

theorem gsm_single_some {store : Store} {username : String} {k : UsageKey}
    {sm : StudentModule} (hwf : StoreWf store)
    (h : find_row store username k = some sm) :
    _get_student_modules store username [k] = [(sm, k)] := by
  rw [gsm_single]
  have hone : store.filter (rowMatch username k.course k) = [sm] := by
    rw [filter_eq_find_toList _ _ (hwf.pairwise_rowMatch username k.course k)]
    simp only [find_row] at h
    rw [h]; rfl
  obtain ⟨_, _, hc, hk⟩ := find_row_eq_some h
  rw [hone, List.map_cons, List.map_nil, hk, hc, map_into_course_self]

theorem gsm_single_created {store : Store} {username : String} {k : UsageKey}
    (h : find_row store username k = none) {row : StudentModule}
    (hstudent : row.student = username) (hcourse : row.course = k.course)
    (hkey : row.module_state_key = k) :
    _get_student_modules (store ++ [row]) username [k] = [(row, k)] := by
  rw [gsm_single, List.filter_append]
  have hnil : store.filter (rowMatch username k.course k) = [] := by
    rw [List.filter_eq_nil_iff]
    simp only [find_row, List.find?_eq_none] at h
    exact h
  have hrow : rowMatch username k.course k row = true := by
    simp [rowMatch, hstudent, hcourse, hkey]
  rw [hnil, List.nil_append, List.filter_cons, if_pos hrow, List.filter_nil,
    List.map_cons, List.map_nil, hkey, hcourse, map_into_course_self]

theorem gsm_created {store : Store} {self : String} {k : UsageKey}
    (h : find_row store self k = none) (st : FieldMap) (now : Nat) :
    _get_student_modules (store ++ [newRow self k st now]) self [k] =
      [(newRow self k st now, k)] :=
  gsm_single_created h rfl rfl rfl

theorem set_one_of_none {store : Store} {self : String} {k : UsageKey}
    (hnone : find_row store self k = none) (now : Nat) (st : FieldMap) :
    set_one self now store k st = store ++ [newRow self k st now] := by
  unfold set_one; rw [hnone]

theorem set_one_of_some {store : Store} {self : String} {k : UsageKey}
    {sm : StudentModule} (h : find_row store self k = some sm) (now : Nat)
    (st : FieldMap) :
    set_one self now store k st =
      saveRow store sm (some (dictUpdate (stateOrEmpty sm.state) st)) now := by
  unfold set_one; rw [h]

theorem rowMatch_update (username : String) (c : Nat) (k : UsageKey)
    (x : StudentModule) (ns : Option FieldMap) (now : Nat) :
    rowMatch username c k { x with state := ns, modified := now } =
      rowMatch username c k x := rfl

theorem gsm_single_saved {store : Store} {username : String} {k : UsageKey}
    {sm : StudentModule} (hwf : StoreWf store)
    (h : find_row store username k = some sm) (ns : Option FieldMap) (now : Nat) :
    _get_student_modules (saveRow store sm ns now) username [k] =
      [({ sm with state := ns, modified := now }, k)] := by
  rw [gsm_single]
  unfold saveRow
  rw [List.filter_map]
  have hcongr : store.filter
      ((rowMatch username k.course k) ∘ (fun x =>
        if keyOf x = keyOf sm then { x with state := ns, modified := now } else x)) =
      store.filter (rowMatch username k.course k) := by
    refine List.filter_congr ?_
    intro x _
    by_cases hx : keyOf x = keyOf sm
    · simp only [Function.comp_apply, if_pos hx, rowMatch_update]
    · simp only [Function.comp_apply, if_neg hx]
  rw [hcongr]
  have hone : store.filter (rowMatch username k.course k) = [sm] := by
    rw [filter_eq_find_toList _ _ (hwf.pairwise_rowMatch username k.course k)]
    simp only [find_row] at h
    rw [h]; rfl
  obtain ⟨_, _, hc, hk⟩ := find_row_eq_some h
  rw [hone, List.map_cons, List.map_nil, List.map_cons, List.map_nil, if_pos rfl]
  have hk2 : ({ sm with state := ns, modified := now } :
      StudentModule).module_state_key = k := hk
  have hc2 : ({ sm with state := ns, modified := now } : StudentModule).course =
      k.course := hc
  rw [hk2, hc2, map_into_course_self]

/-! ### Reductions of the client operations -/

theorem get_of_single {self : String} {store : Store} {k : UsageKey}
    {sm : StudentModule} {uk : UsageKey}
    (h : _get_student_modules store self [k] = [(sm, uk)])
    (fields : Option (List String)) :
    get self store self k Scope.user_state fields =
      Except.ok (stateOrEmpty sm.state) := by
  simp [get, get_many, h]

theorem get_of_single_nil {self : String} {store : Store} {k : UsageKey}
    (h : _get_student_modules store self [k] = [])
    (fields : Option (List String)) :
    get self store self k Scope.user_state fields =
      Except.error StoreError.doesNotExist := by
  simp [get, get_many, h]

theorem set_eq_set_one (self : String) (store : Store) (now : Nat) (k : UsageKey)
    (P : FieldMap) :
    set self store now self k P Scope.user_state =
      Except.ok (set_one self now store k P) := by
  simp [set, set_many]

theorem delete_many_single_skip {self : String} {store : Store} {k : UsageKey}
    (h : find_row store self k = none) (now : Nat) (fields : Option (List String)) :
    delete_many self store now self [k] Scope.user_state fields = Except.ok store := by
  simp [delete_many, gsm_single_none h]
  rfl

theorem delete_many_single_reset {self : String} {store : Store} {k : UsageKey}
    {sm : StudentModule} (hwf : StoreWf store)
    (h : find_row store self k = some sm) (now : Nat) :
    delete_many self store now self [k] Scope.user_state none =
      Except.ok (saveRow store sm (some []) now) := by
  simp [delete_many, gsm_single_some hwf h]

theorem delete_many_single_fields {self : String} {store : Store} {k : UsageKey}
    {sm : StudentModule} {cur : FieldMap} (hwf : StoreWf store)
    (h : find_row store self k = some sm) (hstate : sm.state = some cur)
    (now : Nat) (fs : List String) :
    delete_many self store now self [k] Scope.user_state (some fs) =
      Except.ok (saveRow store sm (some (delete_fields cur fs)) now) := by
  simp [delete_many, gsm_single_some hwf h, hstate]

theorem delete_many_single_null {self : String} {store : Store} {k : UsageKey}
    {sm : StudentModule} (hwf : StoreWf store)
    (h : find_row store self k = some sm) (hstate : sm.state = none)
    (now : Nat) (fs : List String) :
    delete_many self store now self [k] Scope.user_state (some fs) =
      Except.error StoreError.typeError := by
  simp [delete_many, gsm_single_some hwf h, hstate]

/-! ### Claim theorems -/

/-- C1: after `set(u, k, P)`, `get(u, k)` returns the previously stored field
map shallow-updated with `P` — each key of `P` overwrites the same key, keys
not mentioned in `P` are preserved — and if no record existed before the set,
`get(u, k)` returns exactly `P`. -/
theorem set_then_get_overlay (self : String) (store : Store) (now : Nat)
    (k : UsageKey) (P : FieldMap) (hwf : StoreWf store)
    (hP : (P.map Prod.fst).Nodup) :
    ∃ store', set self store now self k P Scope.user_state = Except.ok store' ∧
      (find_row store self k = none →
        get self store' self k Scope.user_state none = Except.ok P) ∧
      (∀ sm, find_row store self k = some sm →
        ∃ m', get self store' self k Scope.user_state none = Except.ok m' ∧
          ∀ x, dictLookup m' x =
            if (dictLookup P x).isSome then dictLookup P x
            else dictLookup (stateOrEmpty sm.state) x) := by
  refine ⟨set_one self now store k P, set_eq_set_one self store now k P, ?_, ?_⟩
  · intro hnone
    rw [set_one_of_none hnone now P, get_of_single (gsm_created hnone P now) none]
    rfl
  · intro sm hsm
    rw [set_one_of_some hsm now P]
    refine ⟨dictUpdate (stateOrEmpty sm.state) P,
      get_of_single (gsm_single_saved hwf hsm _ now) none, ?_⟩
    intro x
    exact dictLookup_dictUpdate P hP (stateOrEmpty sm.state) x

/-- C2: for an existing record, `delete_many` with `fields=None` resets the
stored map to `{}` (a later `get` returns `{}`); with a name list it removes
exactly those keys (absent names silently ignored, other keys preserved);
keys with no record are skipped with no effect. -/
theorem delete_many_resets_or_removes (self : String) (store : Store) (now : Nat)
    (k : UsageKey) (hwf : StoreWf store) :
    (∀ sm, find_row store self k = some sm →
      ∃ store', delete_many self store now self [k] Scope.user_state none =
          Except.ok store' ∧
        get self store' self k Scope.user_state none = Except.ok []) ∧
    (∀ sm cur, find_row store self k = some sm → sm.state = some cur →
      ∀ fs, ∃ store',
        delete_many self store now self [k] Scope.user_state (some fs) =
          Except.ok store' ∧
        ∃ m', get self store' self k Scope.user_state none = Except.ok m' ∧
          ∀ x, dictLookup m' x = if x ∈ fs then none else dictLookup cur x) ∧
    (find_row store self k = none →
      ∀ fields, delete_many self store now self [k] Scope.user_state fields =
        Except.ok store) := by
  refine ⟨?_, ?_, ?_⟩
  · intro sm hsm
    refine ⟨_, delete_many_single_reset hwf hsm now, ?_⟩
    rw [get_of_single (gsm_single_saved hwf hsm (some []) now) none]
    rfl
  · intro sm cur hsm hstate fs
    refine ⟨_, delete_many_single_fields hwf hsm hstate now fs, ?_⟩
    refine ⟨delete_fields cur fs,
      get_of_single (gsm_single_saved hwf hsm _ now) none, ?_⟩
    intro x
    exact dictLookup_delete_fields fs cur x
  · intro hnone fields
    exact delete_many_single_skip hnone now fields

/-- C3: `get_many` yields the same entries whatever the `fields` argument is —
the filter is accepted but never honored, each yielded map is the entire
stored field map. -/
theorem get_many_ignores_fields (self : String) (store : Store)
    (username : String) (block_keys : List UsageKey) (scope : Scope)
    (fields : Option (List String)) :
    get_many self store username block_keys scope fields =
      get_many self store username block_keys scope none := rfl

/-- C4: every operation called with a scope other than `Scope.user_state`
fails with the unsupported-scope error; the result is the same for every
backing store and no store is returned, so no storage is read or mutated. -/
theorem unsupported_scope_rejected (self : String) (scope : Scope)
    (hs : scope ≠ Scope.user_state) (store : Store) (now : Nat) (k : UsageKey)
    (ks : List UsageKey) (P : FieldMap) (batch : List (UsageKey × FieldMap))
    (fields : Option (List String)) :
    get self store self k scope fields = Except.error StoreError.unsupportedScope ∧
    get_many self store self ks scope fields =
      Except.error StoreError.unsupportedScope ∧
    set self store now self k P scope = Except.error StoreError.unsupportedScope ∧
    set_many self store now self batch scope =
      Except.error StoreError.unsupportedScope ∧
    delete self store now self k scope fields =
      Except.error StoreError.unsupportedScope ∧
    delete_many self store now self ks scope fields =
      Except.error StoreError.unsupportedScope ∧
    get_mod_date self store self k scope fields =
      Except.error StoreError.unsupportedScope ∧
    get_mod_date_many self store self ks scope fields =
      Except.error StoreError.unsupportedScope := by
  refine ⟨?_, ?_, ?_, ?_, ?_, ?_, ?_, ?_⟩ <;>
    simp [get, get_many, set, set_many, delete, delete_many, get_mod_date,
      get_mod_date_many, hs]

/-- C7: each single-key operation equals the 1-element batch of its plural
counterpart: `get` takes the unique entry of `get_many` on `[k]` (DoesNotExist
when empty), `set` is `set_many` on a singleton dict, `delete` is
`delete_many` on `[k]`, and `get_mod_date` collapses `get_mod_date_many` on
`[k]` into a field-to-date mapping. -/
theorem singular_ops_are_one_element_batches (self : String) (store : Store)
    (now : Nat) (username : String) (k : UsageKey) (st : FieldMap)
    (scope : Scope) (fields : Option (List String)) :
    (get self store username k scope fields =
      match get_many self store username [k] scope fields with
      | Except.error e => Except.error e
      | Except.ok [] => Except.error StoreError.doesNotExist
      | Except.ok (e :: _) => Except.ok e.2) ∧
    (set self store now username k st scope =
      set_many self store now username [(k, st)] scope) ∧
    (delete self store now username k scope fields =
      delete_many self store now username [k] scope fields) ∧
    (get_mod_date self store username k scope fields =
      match get_mod_date_many self store username [k] scope fields with
      | Except.error e => Except.error e
      | Except.ok results =>
        Except.ok (dictOfPairs (results.map (fun r => (r.2.1, r.2.2))))) := by
  by_cases hu : self = username <;>
    simp [get, set, delete, get_mod_date, get_many, set_many, delete_many,
      get_mod_date_many, hu]

/-- C9: calling any operation with a username different from the bound owner
fails with the fatal assertion error, for every store, scope and key — the
result is independent of the store, so no storage is touched. -/
theorem username_mismatch_fatal (self username : String) (h : username ≠ self)
    (store : Store) (now : Nat) (scope : Scope) (k : UsageKey)
    (ks : List UsageKey) (P : FieldMap) (batch : List (UsageKey × FieldMap))
    (fields : Option (List String)) :
    get self store username k scope fields =
      Except.error StoreError.assertionError ∧
    get_many self store username ks scope fields =
      Except.error StoreError.assertionError ∧
    set self store now username k P scope =
      Except.error StoreError.assertionError ∧
    set_many self store now username batch scope =
      Except.error StoreError.assertionError ∧
    delete self store now username k scope fields =
      Except.error StoreError.assertionError ∧
    delete_many self store now username ks scope fields =
      Except.error StoreError.assertionError ∧
    get_mod_date self store username k scope fields =
      Except.error StoreError.assertionError ∧
    get_mod_date_many self store username ks scope fields =
      Except.error StoreError.assertionError ∧
    get_history self username k scope = Except.error StoreError.assertionError := by
  have h' : ¬self = username := fun he => h he.symm
  refine ⟨?_, ?_, ?_, ?_, ?_, ?_, ?_, ?_, ?_⟩ <;>
    simp [get, get_many, set, set_many, delete, delete_many, get_mod_date,
      get_mod_date_many, get_history, h']

/-- C10: a record that exists with a null stored state makes `delete_many`
with a name list fail with the TypeError of parsing null JSON, while
`delete_many` with `fields=None` resets it to `{}` without error, and
`get_many` treats the same record as having the empty field map. -/
theorem delete_many_null_state_typeerror (self : String) (store : Store)
    (now : Nat) (k : UsageKey) (sm : StudentModule) (hwf : StoreWf store)
    (hsm : find_row store self k = some sm) (hnull : sm.state = none) :
    (∀ fs, delete_many self store now self [k] Scope.user_state (some fs) =
      Except.error StoreError.typeError) ∧
    (∃ store', delete_many self store now self [k] Scope.user_state none =
        Except.ok store' ∧
      get self store' self k Scope.user_state none = Except.ok []) ∧
    get_many self store self [k] Scope.user_state none =
      Except.ok [(k, [])] := by
  refine ⟨?_, ?_, ?_⟩
  · intro fs
    exact delete_many_single_null hwf hsm hnull now fs
  · refine ⟨_, delete_many_single_reset hwf hsm now, ?_⟩
    rw [get_of_single (gsm_single_saved hwf hsm (some []) now) none]
    rfl
  · simp [get_many, gsm_single_some hwf hsm, hnull, stateOrEmpty]

/-! ### Batch membership analysis -/

theorem groupByCourse_cons (k : UsageKey) (ks : List UsageKey) :
    groupByCourse (k :: ks) =
      match groupByCourse ks with
      | [] => [(k.course, [k])]
      | (c, g) :: rest =>
        if k.course = c then (c, k :: g) :: rest
        else (k.course, [k]) :: (c, g) :: rest := rfl

theorem groupByCourse_course :
    ∀ {l : List UsageKey} {c : Nat} {g : List UsageKey},
      (c, g) ∈ groupByCourse l → ∀ x ∈ g, x.course = c := by
  intro l
  induction l with
  | nil => intro c g h; simp [groupByCourse] at h
  | cons k ks ih =>
    intro c g h
    rw [groupByCourse_cons] at h
    cases hg : groupByCourse ks with
    | nil =>
      rw [hg] at h
      simp only at h
      simp only [List.mem_singleton, Prod.mk.injEq] at h
      obtain ⟨hc, hgg⟩ := h
      subst hc; subst hgg
      intro x hx
      rw [List.mem_singleton] at hx
      subst hx; rfl
    | cons p rest =>
      obtain ⟨c', g'⟩ := p
      rw [hg] at h
      simp only at h
      by_cases hk : k.course = c'
      · rw [if_pos hk] at h
        rcases List.mem_cons.mp h with h1 | h1
        · obtain ⟨hc, hgg⟩ := Prod.mk.injEq .. |>.mp h1
          subst hc; subst hgg
          intro x hx
          rcases List.mem_cons.mp hx with hx1 | hx1
          · subst hx1; exact hk
          · exact ih (by rw [hg]; exact List.mem_cons_self ..) x hx1
        · exact ih (by rw [hg]; exact List.mem_cons_of_mem _ h1)
      · rw [if_neg hk] at h
        rcases List.mem_cons.mp h with h1 | h1
        · obtain ⟨hc, hgg⟩ := Prod.mk.injEq .. |>.mp h1
          subst hc; subst hgg
          intro x hx
          rw [List.mem_singleton] at hx
          subst hx; rfl
        · exact ih (by rw [hg]; exact h1)

theorem gsm_mem {store : Store} {username : String} {ks : List UsageKey}
    {sm : StudentModule} {uk : UsageKey}
    (h : (sm, uk) ∈ _get_student_modules store username ks) :
    sm ∈ store ∧ sm.student = username ∧ uk = sm.module_state_key ∧
      sm.course = sm.module_state_key.course := by
  unfold _get_student_modules _get_student_modules_counted at h
  simp only [List.mem_flatMap, List.mem_map] at h
  obtain ⟨cg, hcg, sm', hsm', heq⟩ := h
  obtain ⟨c, guks⟩ := cg
  obtain ⟨hsm_eq, huk⟩ := Prod.mk.injEq .. |>.mp heq
  subst hsm_eq
  simp only [chunked_filter, List.mem_filter, decide_eq_true_eq] at hsm'
  obtain ⟨hmem_store, hkey_in, hstudent, hcourse⟩ := hsm'
  have hkc : sm'.module_state_key.course = c :=
    groupByCourse_course hcg sm'.module_state_key hkey_in
  have hcc : sm'.course = sm'.module_state_key.course := by rw [hcourse, hkc]
  refine ⟨hmem_store, hstudent, ?_, hcc⟩
  rw [← huk, hcc, map_into_course_self]

/-- C5: `get_many` yields no entry for a key with no existing record (missing
records are silently omitted, never reported as an empty map), and single-key
`get` raises DoesNotExist exactly when the underlying 1-element batch yields
zero results, i.e. when no record for the key exists. -/
theorem missing_records_omitted (self : String) (store : Store) (k : UsageKey)
    (ks : List UsageKey) (fields : Option (List String)) :
    (find_row store self k = none →
      ∀ entries, get_many self store self ks Scope.user_state fields =
          Except.ok entries →
        ∀ m, (k, m) ∉ entries) ∧
    (get self store self k Scope.user_state fields =
        Except.error StoreError.doesNotExist ↔ find_row store self k = none) := by
  constructor
  · intro hnone entries hentries m hmem
    have hentries' : entries = (_get_student_modules store self ks).map
        (fun mu => (mu.2, stateOrEmpty mu.1.state)) := by
      have h2 := hentries
      simp [get_many] at h2
      exact h2.symm
    rw [hentries'] at hmem
    simp only [List.mem_map] at hmem
    obtain ⟨mu, hmu, heq⟩ := hmem
    obtain ⟨sm, uk⟩ := mu
    obtain ⟨huk, _⟩ := Prod.mk.injEq .. |>.mp heq
    have huk' : uk = k := huk
    obtain ⟨hmem_store, hstudent, hukkey, hcc⟩ := gsm_mem hmu
    rw [find_row, List.find?_eq_none] at hnone
    refine hnone sm hmem_store ?_
    have hkey : sm.module_state_key = k := by rw [← hukkey, huk']
    simp only [rowMatch, decide_eq_true_eq]
    refine ⟨hstudent, ?_, hkey⟩
    rw [hcc, hkey]
  · constructor
    · intro hget
      cases hfr : find_row store self k with
      | none => rfl
      | some sm =>
        exfalso
        obtain ⟨hmem, hst, hc, hk⟩ := find_row_eq_some hfr
        cases hfil : store.filter (rowMatch self k.course k) with
        | nil =>
          rw [List.filter_eq_nil_iff] at hfil
          refine hfil sm hmem ?_
          simp [rowMatch, hst, hc, hk]
        | cons a rest =>
          simp [get, get_many, gsm_single, hfil] at hget
    · intro hfr
      exact get_of_single_nil (gsm_single_none hfr) fields

/-- C6: `get_mod_date_many` yields, per resolved record, one
(key, field name, timestamp) tuple for each stored field name, every tuple
carrying the record-level modified timestamp (null or empty states yield
nothing); consequently after set(u, k, {a: 1, b: 2}), get_mod_date maps both
a and b to one and the same timestamp. -/
theorem mod_dates_share_record_timestamp (self : String) (store : Store)
    (ks : List UsageKey) (fields : Option (List String)) :
    get_mod_date_many self store self ks Scope.user_state fields =
      Except.ok ((_get_student_modules store self ks).flatMap
        (fun mu => (stateOrEmpty mu.1.state).map
          (fun fv => (mu.2, fv.1, mu.1.modified)))) ∧
    (∀ (now : Nat) (k : UsageKey), StoreWf store →
      ∀ store', set self store now self k
          [("a", JsonValue.num 1), ("b", JsonValue.num 2)] Scope.user_state =
          Except.ok store' →
        ∃ t res, get_mod_date self store' self k Scope.user_state none =
            Except.ok res ∧
          dictLookup res "a" = some t ∧ dictLookup res "b" = some t) := by
  constructor
  · unfold get_mod_date_many
    rw [if_pos rfl, if_pos rfl]
    refine congrArg Except.ok (congrArg _ (funext ?_))
    intro mu
    cases h : mu.1.state <;> simp [stateOrEmpty, h]
  · intro now k hwf store' hset
    rw [set_eq_set_one] at hset
    injection hset with hset
    subst hset
    cases hfr : find_row store self k with
    | none =>
      rw [set_one_of_none hfr now _]
      have hgsm := gsm_created hfr [("a", JsonValue.num 1), ("b", JsonValue.num 2)] now
      refine ⟨now, [("a", now), ("b", now)], ?_, ?_, ?_⟩
      · simp [get_mod_date, get_mod_date_many, hgsm]
        simp [newRow, dictOfPairs, dictUpdate, dictSet]
      · simp [dictLookup]
      · simp [dictLookup]
    | some sm =>
      rw [set_one_of_some hfr now _]
      have hgsm := gsm_single_saved hwf hfr
        (some (dictUpdate (stateOrEmpty sm.state)
          [("a", JsonValue.num 1), ("b", JsonValue.num 2)])) now
      refine ⟨now,
        dictUpdate [] (((dictUpdate (stateOrEmpty sm.state)
          [("a", JsonValue.num 1), ("b", JsonValue.num 2)]).map Prod.fst).map
            (fun f => (f, now))), ?_, ?_, ?_⟩
      · simp [get_mod_date, get_mod_date_many, hgsm, dictOfPairs, List.map_map,
          Function.comp]
        rfl
      · rw [dictLookup_dictUpdate_const]
        have hmem : "a" ∈ (dictUpdate (stateOrEmpty sm.state)
            [("a", JsonValue.num 1), ("b", JsonValue.num 2)]).map Prod.fst :=
          mem_keys_dictUpdate_left _ _ (by simp)
        simp [hmem]
      · rw [dictLookup_dictUpdate_const]
        have hmem : "b" ∈ (dictUpdate (stateOrEmpty sm.state)
            [("a", JsonValue.num 1), ("b", JsonValue.num 2)]).map Prod.fst :=
          mem_keys_dictUpdate_left _ _ (by simp)
        simp [hmem]

/-! ### Counting the per-course-group queries -/

/-- Adjacent deduplication of a list of course ids; the group heads of
groupByCourse. -/
def dedupAdj : List Nat → List Nat
  | [] => []
  | c :: cs =>
    match dedupAdj cs with
    | [] => [c]
    | c' :: rest => if c = c' then c' :: rest else c :: c' :: rest

theorem dedupAdj_cons (c : Nat) (cs : List Nat) :
    dedupAdj (c :: cs) =
      match dedupAdj cs with
      | [] => [c]
      | c' :: rest => if c = c' then c' :: rest else c :: c' :: rest := rfl

theorem groupByCourse_map_fst :
    ∀ l : List UsageKey,
      (groupByCourse l).map Prod.fst = dedupAdj (l.map (fun k => k.course)) := by
  intro l
  induction l with
  | nil => rfl
  | cons k ks ih =>
    rw [groupByCourse_cons, List.map_cons, dedupAdj_cons, ← ih]
    cases hg : groupByCourse ks with
    | nil => simp [hg]
    | cons p rest =>
      obtain ⟨c', g'⟩ := p
      by_cases hk : k.course = c' <;> simp [hg, hk]

theorem mem_dedupAdj : ∀ {cs : List Nat} {x : Nat}, x ∈ dedupAdj cs → x ∈ cs := by
  intro cs
  induction cs with
  | nil => intro x h; simp [dedupAdj] at h
  | cons c cs ih =>
    intro x h
    rw [dedupAdj_cons] at h
    cases hd : dedupAdj cs with
    | nil =>
      rw [hd] at h
      rw [List.mem_singleton] at h
      subst h
      exact List.mem_cons_self ..
    | cons c' rest =>
      rw [hd] at h
      simp only at h
      by_cases hc : c = c'
      · rw [if_pos hc] at h
        exact List.mem_cons_of_mem c (ih (by rw [hd]; exact h))
      · rw [if_neg hc] at h
        rcases List.mem_cons.mp h with h1 | h1
        · subst h1; exact List.mem_cons_self ..
        · exact List.mem_cons_of_mem c (ih (by rw [hd]; exact h1))

theorem dedupAdj_sorted : ∀ {cs : List Nat},
    cs.Sorted (fun a b => a ≤ b) → (dedupAdj cs).Sorted (fun a b => a < b) := by
  intro cs
  induction cs with
  | nil => intro _; simp [dedupAdj]
  | cons c cs ih =>
    intro h
    rw [List.sorted_cons] at h
    obtain ⟨hle, hs⟩ := h
    rw [dedupAdj_cons]
    cases hd : dedupAdj cs with
    | nil => simp
    | cons c' rest =>
      simp only
      have hsd := ih hs
      rw [hd] at hsd
      by_cases hc : c = c'
      · rw [if_pos hc]; exact hsd
      · rw [if_neg hc]
        rw [List.sorted_cons]
        refine ⟨?_, hsd⟩
        intro b hb
        rcases List.mem_cons.mp hb with hb1 | hb1
        · subst hb1
          have hcb : c ≤ b := hle b (mem_dedupAdj (by rw [hd]; exact List.mem_cons_self ..))
          exact lt_of_le_of_ne hcb hc
        · have hc'cs : c' ∈ cs :=
            mem_dedupAdj (by rw [hd]; exact List.mem_cons_self ..)
          have h1 : c ≤ c' := hle c' hc'cs
          have h2 : c' < b := (List.sorted_cons.mp hsd).1 b hb1
          exact lt_of_le_of_lt h1 h2

theorem dedupAdj_toFinset : ∀ cs : List Nat, (dedupAdj cs).toFinset = cs.toFinset := by
  intro cs
  induction cs with
  | nil => rfl
  | cons c cs ih =>
    rw [dedupAdj_cons]
    cases hd : dedupAdj cs with
    | nil =>
      have h1 : cs.toFinset = ([] : List Nat).toFinset := by rw [← ih, hd]
      simp [h1]
    | cons c' rest =>
      simp only
      have h1 : (c' :: rest).toFinset = cs.toFinset := by rw [← hd]; exact ih
      by_cases hc : c = c'
      · rw [if_pos hc, h1, List.toFinset_cons]
        have hmem : c ∈ cs.toFinset := by
          rw [← h1]
          simp [hc]
        exact (Finset.insert_eq_self.mpr hmem).symm
      · rw [if_neg hc, List.toFinset_cons, h1, List.toFinset_cons]

instance : IsTotal UsageKey (fun a b => a.course ≤ b.course) :=
  ⟨fun a b => Nat.le_total a.course b.course⟩

instance : IsTrans UsageKey (fun a b => a.course ≤ b.course) :=
  ⟨fun _ _ _ h1 h2 => Nat.le_trans h1 h2⟩

theorem sortByCourse_sorted (l : List UsageKey) :
    ((sortByCourse l).map (fun k => k.course)).Sorted (fun a b => a ≤ b) := by
  have h := List.sorted_insertionSort (fun a b : UsageKey => a.course ≤ b.course) l
  exact List.Pairwise.map _ (fun a b hab => hab) h

/-- C8: the record-lookup helper shared by the batch operations issues exactly
one backing-store query per distinct parent course among the requested keys —
the query count equals the number of distinct courses, never the number of
keys. -/
theorem one_query_per_course_group (store : Store) (username : String)
    (block_keys : List UsageKey) :
    (_get_student_modules_counted store username block_keys).2 =
      ((block_keys.map (fun k => k.course)).toFinset).card := by
  show (groupByCourse (sortByCourse block_keys)).length = _
  have h1 : (groupByCourse (sortByCourse block_keys)).length =
      (dedupAdj ((sortByCourse block_keys).map (fun k => k.course))).length := by
    rw [← groupByCourse_map_fst, List.length_map]
  rw [h1]
  have hnodup : (dedupAdj ((sortByCourse block_keys).map
      (fun k => k.course))).Nodup :=
    (dedupAdj_sorted (sortByCourse_sorted block_keys)).nodup
  rw [← List.toFinset_card_of_nodup hnodup, dedupAdj_toFinset]
  refine congrArg Finset.card ?_
  exact List.toFinset_eq_of_perm _ _ ((List.perm_insertionSort _ _).map _)

/-! ### Concrete witnesses -/

/-- A sample usage key for witnesses. -/
def wkey : UsageKey := ⟨1, 1, "problem"⟩

/-- A sample stored row holding fields a and b. -/
def wrowAB : StudentModule :=
  newRow "u" wkey [("a", JsonValue.num 1), ("b", JsonValue.num 2)] 5

/-- A sample row whose stored state is null. -/
def wrowNull : StudentModule := ⟨"u", 1, wkey, none, "problem", 3⟩

/-- Witness for C1 at a concrete input. -/
theorem set_then_get_overlay_witness :
    StoreWf ([] : Store) ∧
    (([("a", JsonValue.num 1)] : FieldMap).map Prod.fst).Nodup ∧
    (∃ store', set "u" ([] : Store) 0 "u" wkey [("a", JsonValue.num 1)]
        Scope.user_state = Except.ok store' ∧
      (find_row ([] : Store) "u" wkey = none →
        get "u" store' "u" wkey Scope.user_state none =
          Except.ok [("a", JsonValue.num 1)]) ∧
      (∀ sm, find_row ([] : Store) "u" wkey = some sm →
        ∃ m', get "u" store' "u" wkey Scope.user_state none = Except.ok m' ∧
          ∀ x, dictLookup m' x =
            if (dictLookup [("a", JsonValue.num 1)] x).isSome
            then dictLookup [("a", JsonValue.num 1)] x
            else dictLookup (stateOrEmpty sm.state) x)) :=
  ⟨List.nodup_nil, by decide,
    set_then_get_overlay "u" [] 0 wkey [("a", JsonValue.num 1)]
      List.nodup_nil (by decide)⟩

/-- Witness for C2 at a concrete input: deleting all fields of a stored record
makes a later get return the empty map. -/
theorem delete_many_resets_or_removes_witness :
    StoreWf [wrowAB] ∧
    (∃ store', delete_many "u" [wrowAB] 9 "u" [wkey] Scope.user_state none =
        Except.ok store' ∧
      get "u" store' "u" wkey Scope.user_state none = Except.ok []) :=
  ⟨List.nodup_singleton _,
    (delete_many_resets_or_removes "u" [wrowAB] 9 wkey
      (List.nodup_singleton _)).1 wrowAB rfl⟩

/-- Witness for C4 at a concrete input (the settings scope). -/
theorem unsupported_scope_rejected_witness :
    Scope.settings ≠ Scope.user_state ∧
    (get "u" ([] : Store) "u" wkey Scope.settings none =
        Except.error StoreError.unsupportedScope ∧
      get_many "u" ([] : Store) "u" [] Scope.settings none =
        Except.error StoreError.unsupportedScope ∧
      set "u" ([] : Store) 0 "u" wkey [] Scope.settings =
        Except.error StoreError.unsupportedScope ∧
      set_many "u" ([] : Store) 0 "u" [] Scope.settings =
        Except.error StoreError.unsupportedScope ∧
      delete "u" ([] : Store) 0 "u" wkey Scope.settings none =
        Except.error StoreError.unsupportedScope ∧
      delete_many "u" ([] : Store) 0 "u" [] Scope.settings none =
        Except.error StoreError.unsupportedScope ∧
      get_mod_date "u" ([] : Store) "u" wkey Scope.settings none =
        Except.error StoreError.unsupportedScope ∧
      get_mod_date_many "u" ([] : Store) "u" [] Scope.settings none =
        Except.error StoreError.unsupportedScope) :=
  ⟨by decide,
    unsupported_scope_rejected "u" Scope.settings (by decide) [] 0 wkey [] [] [] none⟩

/-- Witness for C5 at a concrete input: a never-written key makes get raise
DoesNotExist. -/
theorem missing_records_omitted_witness :
    find_row ([] : Store) "u" wkey = none ∧
    get "u" ([] : Store) "u" wkey Scope.user_state none =
      Except.error StoreError.doesNotExist :=
  ⟨rfl, (missing_records_omitted "u" [] wkey [wkey] none).2.mpr rfl⟩

/-- Witness for C6 at a concrete input: after storing fields a and b, both
report one and the same modification timestamp. -/
theorem mod_dates_share_record_timestamp_witness :
    StoreWf ([] : Store) ∧
    set "u" ([] : Store) 0 "u" wkey
        [("a", JsonValue.num 1), ("b", JsonValue.num 2)] Scope.user_state =
      Except.ok [newRow "u" wkey
        [("a", JsonValue.num 1), ("b", JsonValue.num 2)] 0] ∧
    (∃ t res, get_mod_date "u" [newRow "u" wkey
          [("a", JsonValue.num 1), ("b", JsonValue.num 2)] 0] "u" wkey
          Scope.user_state none = Except.ok res ∧
      dictLookup res "a" = some t ∧ dictLookup res "b" = some t) :=
  ⟨List.nodup_nil, rfl,
    (mod_dates_share_record_timestamp "u" [] [] none).2 0 wkey List.nodup_nil
      [newRow "u" wkey [("a", JsonValue.num 1), ("b", JsonValue.num 2)] 0] rfl⟩

/-- Witness for C9 at a concrete input: a username different from the bound
owner fails the assertion on every operation. -/
theorem username_mismatch_fatal_witness :
    ("x" : String) ≠ "u" ∧
    (get "u" ([] : Store) "x" wkey Scope.user_state none =
        Except.error StoreError.assertionError ∧
      get_many "u" ([] : Store) "x" [] Scope.user_state none =
        Except.error StoreError.assertionError ∧
      set "u" ([] : Store) 0 "x" wkey [] Scope.user_state =
        Except.error StoreError.assertionError ∧
      set_many "u" ([] : Store) 0 "x" [] Scope.user_state =
        Except.error StoreError.assertionError ∧
      delete "u" ([] : Store) 0 "x" wkey Scope.user_state none =
        Except.error StoreError.assertionError ∧
      delete_many "u" ([] : Store) 0 "x" [] Scope.user_state none =
        Except.error StoreError.assertionError ∧
      get_mod_date "u" ([] : Store) "x" wkey Scope.user_state none =
        Except.error StoreError.assertionError ∧
      get_mod_date_many "u" ([] : Store) "x" [] Scope.user_state none =
        Except.error StoreError.assertionError ∧
      get_history "u" "x" wkey Scope.user_state =
        Except.error StoreError.assertionError) :=
  ⟨by decide,
    username_mismatch_fatal "u" "x" (by decide) [] 0 Scope.user_state wkey
      [] [] [] none⟩

/-- Witness for C10 at a concrete input: a null-state row makes field-wise
delete raise TypeError while a full reset succeeds. -/
theorem delete_many_null_state_typeerror_witness :
    StoreWf [wrowNull] ∧ find_row [wrowNull] "u" wkey = some wrowNull ∧
    wrowNull.state = none ∧
    ((∀ fs, delete_many "u" [wrowNull] 7 "u" [wkey] Scope.user_state (some fs) =
        Except.error StoreError.typeError) ∧
      (∃ store', delete_many "u" [wrowNull] 7 "u" [wkey] Scope.user_state none =
          Except.ok store' ∧
        get "u" store' "u" wkey Scope.user_state none = Except.ok []) ∧
      get_many "u" [wrowNull] "u" [wkey] Scope.user_state none =
        Except.ok [(wkey, [])]) :=
  ⟨List.nodup_singleton _, rfl, rfl,
    delete_many_null_state_typeerror "u" [wrowNull] 7 wkey wrowNull
      (List.nodup_singleton _) rfl rfl⟩

end UserState
